import Mathlib

/-!
# Verification of the INA226 driver and the NanoPi Neo adaptor

Shallow embedding of `drivers/i2c/ina226_driver.go` and
`platforms/nanopineo/nanopi_neo_adaptor.go`.

Modelling conventions:
* Go `float64` arithmetic is modelled as exact rational arithmetic over `ℚ`;
  `math.Floor`/`math.Ceil` become `Int.floor`/`Int.ceil`, and
  `math.Floor(math.Log10 x)` for `x > 0` becomes `log10floorQ x`, a
  computable base-10 integer logarithm characterised by
  `10 ^ log10floorQ x ≤ x < 10 ^ (log10floorQ x + 1)` (see `log10floorQ_mem`).
* Bytes and 16-bit words are `ℕ` together with the explicit truncations
  (`% 256`, `% 65536`) that Go's narrowing conversions perform.
* The I2C connection is modelled as an oracle: a function giving the error
  (if any) produced by a `Write` call, and the two bytes produced by the
  `Read` call that fills the driver's 2-byte buffer.
* Go errors are modelled as an inductive type: I/O errors carry the string
  produced by the transport, and the driver's `fmt.Errorf` validation error
  for a non-positive shunt resistance carries the offending value.
-/

namespace I2C

/-- Go `byte(n)` narrowing conversion. -/
def byteOf (n : ℕ) : ℕ := n % 256

/-! Register address map (source constants `CONFIG_REG` .. `DIEID_REG`). -/

def CONFIG_REG : ℕ := 0x00
def SHUNTVOLTAGE_REG : ℕ := 0x01
def BUSVOLTAGE_REG : ℕ := 0x02
def POWER_REG : ℕ := 0x03
def CURRENT_REG : ℕ := 0x04
def CALIBRATION_REG : ℕ := 0x05
def MASKENABLE_REG : ℕ := 0x06
def ALERTLIMIT_REG : ℕ := 0x07
def MANUFACTURERID_REG : ℕ := 0xFE
def DIEID_REG : ℕ := 0xFF

/-! Configuration register helper constants (all `uint16` in the source). -/

def INA226_MODE_POWER_DOWN : ℕ := 0x00
def INA226_MODE_SHUNT_TRIG : ℕ := 0x01
def INA226_MODE_BUS_TRIG : ℕ := 0x02
def INA226_MODE_SHUNT_BUS_TRIG : ℕ := 0x03
def INA226_MODE_ADC_OFF : ℕ := 0x04
def INA226_MODE_SHUNT_CONT : ℕ := 0x05
def INA226_MODE_BUS_CONT : ℕ := 0x06
def INA226_MODE_SHUNT_BUS_CONT : ℕ := 0x07
def INA226_SHUNT_CONV_TIME_1100US : ℕ := 0x04 <<< 3
def INA226_BUS_CONV_TIME_1100US : ℕ := 0x04 <<< 6
def INA226_AVERAGES_16 : ℕ := 0x02 <<< 9
def INA226_RST : ℕ := 0x01 <<< 15

/-- `LoadSet` struct: physical calibration context of the driver. -/
structure LoadSet where
  rShunt : ℚ
  iMax : ℚ
  vBusMax : ℚ
  vShuntMax : ℚ
deriving DecidableEq

/-- The I2C connection used by the driver, modelled as an oracle.
`writeErr buf` is the error returned by `connection.Write(buf)` (`none` on
success); `readData` is the outcome of the `connection.Read(buf)` call that
fills the driver's 2-byte buffer: either an error or the two bytes read. -/
structure Connection where
  writeErr : List ℕ → Option String
  readData : Except String (ℕ × ℕ)

/-- Errors surfaced by the driver: transport errors verbatim, and the
`fmt.Errorf("rShunt value: %f is not correct. Must be greater than 0", …)`
validation error, modelled as a constructor carrying the offending value. -/
inductive DriverError
  | ioErr (msg : String)
  | rShuntNotPositive (value : ℚ)
deriving DecidableEq

/-- `wordToByteArray`: big-endian split of a 16-bit word
(`buf[0] = byte(w >> 8); buf[1] = byte(w)`). -/
def wordToByteArray (w : ℕ) : List ℕ := [byteOf (w >>> 8), byteOf w]

/-- A `i.connection.Write(buf)` call with the driver's error propagation
(`if err != nil { return err }`). -/
def connWrite (c : Connection) (buf : List ℕ) : Except DriverError Unit :=
  match c.writeErr buf with
  | some e => .error (.ioErr e)
  | none => .ok ()

/-- `readRegister16`: write the register address, read two bytes, combine
big-endian (`uint16(buf[0])<<8 | uint16(buf[1])`). -/
def readRegister16 (c : Connection) (reg : ℕ) : Except DriverError ℕ :=
  match c.writeErr [reg] with
  | some e => .error (.ioErr e)
  | none =>
    match c.readData with
    | .error e => .error (.ioErr e)
    | .ok (b0, b1) => .ok ((byteOf b0 <<< 8) ||| byteOf b1)

/-- `readCalibrationRegister`. -/
def readCalibrationRegister (c : Connection) : Except DriverError ℕ :=
  readRegister16 c CALIBRATION_REG

/-- The buffer assembled by `Configure`: `CONFIG_REG` followed by the
big-endian bytes of the OR of all supplied flags. -/
def configBuf (confs : List ℕ) : List ℕ :=
  CONFIG_REG :: wordToByteArray (confs.foldl (fun a b => a ||| b) 0)

/-- `Configure(confs ...uint16)`: OR the flags together and write the
3-byte buffer to the configuration register. -/
def Configure (c : Connection) (confs : List ℕ) : Except DriverError Unit :=
  connWrite c (configBuf confs)

/-- `ReadBusVoltage`: 16-bit unsigned bus-voltage register times 1.25. -/
def ReadBusVoltage (c : Connection) : Except DriverError ℚ :=
  match readRegister16 c BUSVOLTAGE_REG with
  | .error e => .error e
  | .ok voltage => .ok ((voltage : ℚ) * 1.25)

/-- Go `int16(v)` reinterpretation of a 16-bit word as two's complement. -/
def toInt16 (v : ℕ) : ℤ :=
  if v % 65536 < 32768 then (v % 65536 : ℤ) else (v % 65536 : ℤ) - 65536

/-- `ReadShuntVoltage`: 16-bit register as signed times 0.0025. -/
def ReadShuntVoltage (c : Connection) : Except DriverError ℚ :=
  match readRegister16 c SHUNTVOLTAGE_REG with
  | .error e => .error e
  | .ok voltage => .ok ((toInt16 voltage : ℚ) * 0.0025)

/-- `CurrentResolution`: validation error if the stored shunt resistance is
not positive, otherwise `0.00512 / (calibration * rShunt)` with the value
read back from the calibration register. -/
def CurrentResolution (s : LoadSet) (c : Connection) : Except DriverError ℚ :=
  if s.rShunt ≤ 0 then .error (.rShuntNotPositive s.rShunt)
  else
    match readCalibrationRegister c with
    | .error e => .error e
    | .ok calibration => .ok ((0.00512 : ℚ) / ((calibration : ℚ) * s.rShunt))

/-- Fuel-bounded base-10 logarithm on `ℕ` (largest `e` with `10 ^ e ≤ n`,
for `1 ≤ n ≤ fuel`). -/
def log10fuel : ℕ → ℕ → ℕ
  | 0, _ => 0
  | fuel + 1, n => if n < 10 then 0 else log10fuel fuel (n / 10) + 1

/-- `natLog10 n` is `⌊log10 n⌋` for `n ≥ 1`. -/
def natLog10 (n : ℕ) : ℕ := log10fuel n n

/-- Fuel-bounded base-10 ceiling logarithm on `ℕ` (least `e` with
`n ≤ 10 ^ e`, for `1 ≤ n ≤ fuel`). -/
def clog10fuel : ℕ → ℕ → ℕ
  | 0, _ => 0
  | fuel + 1, n => if n ≤ 1 then 0 else clog10fuel fuel ((n + 9) / 10) + 1

/-- `natClog10 n` is `⌈log10 n⌉` for `n ≥ 1`. -/
def natClog10 (n : ℕ) : ℕ := clog10fuel n n

/-- `math.Floor(math.Log10 q)` for a positive rational `q`, as an integer:
for `q ≥ 1` the number of decimal digits of `⌊q⌋` minus one, for `q < 1`
the negated ceiling logarithm of `⌈q⁻¹⌉`. -/
def log10floorQ (q : ℚ) : ℤ :=
  if 1 ≤ q then (natLog10 ⌊q⌋.toNat : ℤ)
  else -(natClog10 ⌈q⁻¹⌉.toNat : ℤ)

/-- Go `uint16(x)` conversion of a (non-negative) `float64`: truncate
toward zero and keep the low 16 bits. -/
def uint16OfQ (q : ℚ) : ℕ := (⌊q⌋).toNat % 65536

/-- Everything `Calibrate` produces: the updated `loadSet`, the buffer
handed to `connection.Write`, and the returned error value. -/
structure CalibrateResult where
  loadSet : LoadSet
  written : List ℕ
  result : Except DriverError Unit

/-- `Calibrate(rShuntValue, iMaxValue)`: store the arguments in `loadSet`,
approximate the current LSB as in the source (micro-amps, mantissa,
ceiling, power of ten, back to amps) and write the resulting calibration
value to the calibration register. -/
def Calibrate (s : LoadSet) (c : Connection) (rShuntValue iMaxValue : ℚ) :
    CalibrateResult :=
  let s := { s with rShunt := rShuntValue, iMax := iMaxValue }
  let currentLSB := s.iMax / 32768
  let currentLSB := currentLSB * 1000000
  let currentLSB_mantissa := currentLSB / (10 : ℚ) ^ log10floorQ currentLSB
  let currentLSB_approx :=
    (⌈currentLSB_mantissa⌉ : ℚ) * (10 : ℚ) ^ log10floorQ currentLSB
  let currentLSB := currentLSB_approx / 1000000
  let calibrationValue := uint16OfQ ((0.00512 : ℚ) / (currentLSB * s.rShunt))
  let buf := CALIBRATION_REG :: wordToByteArray calibrationValue
  ⟨s, buf, connWrite c buf⟩

/-- The calibration value exactly as the specification words it:
`currentLSB = maxCurrentAmps / 32768` scaled to micro-amps, rounded up to
one significant digit via `ceil(mantissa) * 10 ^ floor(log10 currentLSB)`,
converted back to amps, then
`floor(0.00512 / (roundedLSB * shuntResistanceOhms))` truncated to an
unsigned 16-bit integer. -/
def specCalibrationValue (rShunt iMax : ℚ) : ℕ :=
  let currentLSBMicro := iMax / 32768 * 1000000
  let exponent := log10floorQ currentLSBMicro
  let roundedMicro :=
    (⌈currentLSBMicro / (10 : ℚ) ^ exponent⌉ : ℚ) * (10 : ℚ) ^ exponent
  let roundedAmps := roundedMicro / 1000000
  uint16OfQ ((0.00512 : ℚ) / (roundedAmps * rShunt))

/-! Concrete connections used to exercise the driver at specific inputs. -/

/-- A connection whose every write fails. -/
def failConn : Connection := ⟨fun _ => some "write failed", .error "no data"⟩

/-- A connection whose writes succeed and whose read yields the two given
bytes. -/
def okConn (b0 b1 : ℕ) : Connection := ⟨fun _ => none, .ok (b0, b1)⟩

end I2C

namespace NanoPiNeo

/-- `sysfsPin` struct: physical GPIO number and PWM channel (or `-1`). -/
structure SysfsPinEntry where
  pin : ℤ
  pwmPin : ℤ
deriving DecidableEq

/-- The static package-level `pins` table. -/
def pins : List (String × SysfsPinEntry) :=
  [("GPIOG11", ⟨203, -1⟩), ("GPIOC0", ⟨64, -1⟩), ("GPIOC1", ⟨65, -1⟩),
   ("GPIOC2", ⟨66, -1⟩), ("GPIOC3", ⟨67, -1⟩), ("GPIOA6", ⟨6, -1⟩),
   ("GPIOA2", ⟨14, -1⟩), ("GPIOA3", ⟨16, -1⟩)]

/-- Go map read `m[k]`: yields the zero value `{0, 0}` when the key is
absent (in particular, always on a `nil` map). -/
def goMapGet (m : List (String × SysfsPinEntry)) (k : String) :
    SysfsPinEntry :=
  (m.lookup k).getD ⟨0, 0⟩

/-- The `pinmap` field of an adaptor built by `NewAdaptor`: the field is
never assigned (the `c.setPins()` call is commented out), so it is the
`nil` map, here the empty association list. -/
def newAdaptorPinmap : List (String × SysfsPinEntry) := []

/-- The pin-resolution logic of `PWMPin`: look the name up in the adaptor's
`pinmap`; when the entry's PWM channel is not `-1`, proceed with that
channel (the handle for it is created and cached), otherwise return the
`"Not a PWM pin"` error. -/
def PWMPinResolve (pinmap : List (String × SysfsPinEntry)) (pin : String) :
    Except String ℤ :=
  let sysPin := goMapGet pinmap pin
  if sysPin.pwmPin ≠ -1 then .ok sysPin.pwmPin
  else .error "Not a PWM pin"

/-- Possible outcomes of `GetConnection`: a connection backed by a slot of
the `i2cBuses` array, the out-of-range error, or a runtime index-out-of-
bounds panic. -/
inductive GetConnectionOutcome
  | conn (slot : ℕ)
  | rangeError (bus : ℤ)
  | indexPanic (bus : ℤ)
deriving DecidableEq

/-- Length of the `i2cBuses [2]i2c.I2cDevice` array. -/
def i2cBusCount : ℕ := 2

/-- `GetConnection`'s bus-index handling: the guard `(bus < 0) || (bus > 2)`
returns the `"Bus number %d out of range"` error; otherwise
`c.i2cBuses[bus]` is evaluated, which panics at runtime whenever `bus` is
not below the array length. -/
def GetConnection (bus : ℤ) : GetConnectionOutcome :=
  if bus < 0 ∨ bus > 2 then .rangeError bus
  else if bus < (i2cBusCount : ℤ) then .conn bus.toNat
  else .indexPanic bus

/-- A cached digital pin together with the outcome its `Unexport()` call
would have during `Finalize`. -/
structure DigitalPinHandle where
  id : ℕ
  unexportErr : Option String
deriving DecidableEq

/-- A cached PWM pin together with the outcomes of its `Enable(false)` and
`Unexport()` calls during `Finalize`. -/
structure PwmPinHandle where
  id : ℕ
  enableFalseErr : Option String
  unexportErr : Option String
deriving DecidableEq

/-- A cached bus handle together with the outcome of its `Close()` call
during `Finalize`. -/
structure BusHandle where
  id : ℕ
  closeErr : Option String
deriving DecidableEq

/-- The release operations `Finalize` performs. -/
inductive ReleaseAction
  | unexportDigital (id : ℕ)
  | enableFalsePwm (id : ℕ)
  | unexportPwm (id : ℕ)
  | closeBus (id : ℕ)
deriving DecidableEq

/-- `Finalize`: walk every non-nil digital pin, PWM pin and bus handle in
turn, performing its release calls and appending each error to the
`multierror` accumulator (never aborting early; for a PWM pin the
`Unexport` is attempted even when `Enable(false)` failed). Returns the
sequence of release actions attempted and the collected errors in order. -/
def Finalize (dps : List (Option DigitalPinHandle))
    (pps : List (Option PwmPinHandle)) (buses : List (Option BusHandle)) :
    List ReleaseAction × List String :=
  (dps.flatMap (fun h => match h with
      | none => []
      | some p => [ReleaseAction.unexportDigital p.id])
    ++ pps.flatMap (fun h => match h with
      | none => []
      | some p => [ReleaseAction.enableFalsePwm p.id,
                   ReleaseAction.unexportPwm p.id])
    ++ buses.flatMap (fun h => match h with
      | none => []
      | some b => [ReleaseAction.closeBus b.id]),
   dps.flatMap (fun h => match h with
      | none => []
      | some p => p.unexportErr.toList)
    ++ pps.flatMap (fun h => match h with
      | none => []
      | some p => p.enableFalseErr.toList ++ p.unexportErr.toList)
    ++ buses.flatMap (fun h => match h with
      | none => []
      | some b => b.closeErr.toList))

/-- Modelled from the spec: `gobot.FromScale(input, min, max)` (a gobot
utility whose source is not under this repository's two files) maps
`input` from the range `[min, max]` to `[0, 1]` linearly. -/
def fromScale (input mn mx : ℚ) : ℚ := (input - mn) / (mx - mn)

/-- Modelled from the spec: `gobot.ToScale(input, min, max)` maps `input`
from `[0, 1]` to `[min, max]` linearly, so that composed with `fromScale`
the angle range `[0,180]` is "linearly mapped … to a pulse-width range
[0.5 ms, 2.0 ms] expressed in nanoseconds". -/
def toScale (input mn mx : ℚ) : ℚ := input * (mx - mn) + mn

/-- `const minDuty = 0.0005 * 1e9`. -/
def minDuty : ℚ := 0.0005 * 1e9

/-- `const maxDuty = 0.0020 * 1e9`. -/
def maxDuty : ℚ := 0.0020 * 1e9

/-- The duty cycle `ServoWrite` hands to `pwmPin.SetDutyCycle` once the PWM
pin resolved: `uint32(ToScale(FromScale(float64(angle), 0, 180), minDuty,
maxDuty))`.  The pin's configured period is never consulted. -/
def servoDuty (angle : ℕ) : ℕ :=
  (⌊toScale (fromScale (angle : ℚ) 0 180) minDuty maxDuty⌋).toNat % 2 ^ 32

end NanoPiNeo

/-! ## Helper lemmas -/

namespace I2C

/-- OR-folding 16-bit words yields a 16-bit word. -/
theorem foldl_or_lt (l : List ℕ) :
    ∀ acc : ℕ, acc < 2 ^ 16 → (∀ x ∈ l, x < 2 ^ 16) →
      l.foldl (fun a b => a ||| b) acc < 2 ^ 16 := by
  induction l with
  | nil => intro acc ha _; simpa using ha
  | cons x xs ih =>
    intro acc ha h
    simp only [List.foldl_cons]
    exact ih _ (Nat.or_lt_two_pow ha (h x (by simp)))
      (fun y hy => h y (by simp [hy]))

/-- For a 16-bit word, `wordToByteArray` is the big-endian digit pair. -/
theorem wordToByteArray_eq (w : ℕ) (hw : w < 2 ^ 16) :
    wordToByteArray w = [w / 256, w % 256] := by
  unfold wordToByteArray byteOf
  have h1 : w >>> 8 = w / 256 := by
    rw [Nat.shiftRight_eq_div_pow]
  have h2 : w / 256 < 256 := by omega
  rw [h1, Nat.mod_eq_of_lt h2]

/-! ## Claims about the INA226 driver -/

/-- C4: for every list of configuration-flag words (including the empty
list), `Configure` writes exactly 3 bytes to the bus: register address
`0x00` followed by the big-endian 16-bit bitwise OR of all supplied
flags. -/
theorem configure_writes_three_bytes (c : Connection) (confs : List ℕ)
    (h : ∀ x ∈ confs, x < 2 ^ 16) :
    configBuf confs =
      [0x00, confs.foldl (fun a b => a ||| b) 0 / 256,
       confs.foldl (fun a b => a ||| b) 0 % 256] ∧
    (configBuf confs).length = 3 ∧
    Configure c confs = connWrite c (configBuf confs) := by
  have hlt := foldl_or_lt confs 0 (by norm_num) h
  refine ⟨?_, by simp [configBuf, wordToByteArray], rfl⟩
  unfold configBuf CONFIG_REG
  rw [wordToByteArray_eq _ hlt]

/-- Witness for C4 at the flag list
`[INA226_MODE_SHUNT_BUS_CONT, INA226_AVERAGES_16]` (OR `= 1031 = 0x0407`). -/
theorem configure_writes_three_bytes_witness :
    configBuf [INA226_MODE_SHUNT_BUS_CONT, INA226_AVERAGES_16] =
      [0x00, 0x04, 0x07] := by
  have h := configure_writes_three_bytes failConn
    [INA226_MODE_SHUNT_BUS_CONT, INA226_AVERAGES_16] (by decide)
  rw [h.1]; decide

/-- C5: whenever the bus-voltage register read succeeds with raw value `v`,
`ReadBusVoltage` returns `v * 1.25`. -/
theorem readBusVoltage_scales (c : Connection) (v : ℕ)
    (h : readRegister16 c BUSVOLTAGE_REG = .ok v) :
    ReadBusVoltage c = .ok ((v : ℚ) * 1.25) := by
  unfold ReadBusVoltage
  rw [h]

/-- Witness for C5: a raw register value of 1000 yields 1250. -/
theorem readBusVoltage_scales_witness :
    ReadBusVoltage (okConn 3 232) = .ok 1250 := by
  have h := readBusVoltage_scales (okConn 3 232) 1000 rfl
  rw [h]
  have : ((1000 : ℕ) : ℚ) * 1.25 = 1250 := by norm_num
  rw [this]

/-- C6: whenever the shunt-voltage register read succeeds with raw value
`v`, `ReadShuntVoltage` interprets `v` as a signed 16-bit value and
returns it times 0.0025. -/
theorem readShuntVoltage_signed_scales (c : Connection) (v : ℕ)
    (h : readRegister16 c SHUNTVOLTAGE_REG = .ok v) :
    ReadShuntVoltage c = .ok ((toInt16 v : ℚ) * 0.0025) := by
  unfold ReadShuntVoltage
  rw [h]

/-- Witness for C6: the raw register value `0xFF9C = 65436`, signed `-100`,
yields `-0.25`. -/
theorem readShuntVoltage_signed_scales_witness :
    ReadShuntVoltage (okConn 255 156) = .ok (-0.25) := by
  have h := readShuntVoltage_signed_scales (okConn 255 156) 65436 rfl
  rw [h]
  have h1 : toInt16 65436 = -100 := by decide
  rw [h1]
  have : ((-100 : ℤ) : ℚ) * 0.0025 = -0.25 := by norm_num
  rw [this]

/-- C3: `CurrentResolution` fails with the validation error carrying the
stored shunt resistance whenever it is `≤ 0` (the division is never
reached), and otherwise returns `0.00512 / (calibration * rShunt)` with
the value read back from the calibration register. -/
theorem currentResolution_guard_and_formula (s : LoadSet) (c : Connection) :
    (s.rShunt ≤ 0 →
      CurrentResolution s c = .error (.rShuntNotPositive s.rShunt)) ∧
    (∀ cal : ℕ, 0 < s.rShunt → readCalibrationRegister c = .ok cal →
      CurrentResolution s c =
        .ok ((0.00512 : ℚ) / ((cal : ℚ) * s.rShunt))) := by
  constructor
  · intro hle
    unfold CurrentResolution
    rw [if_pos hle]
  · intro cal hpos hread
    unfold CurrentResolution
    rw [if_neg (not_le.mpr hpos), hread]

/-- Witness for C3: stored `rShunt = -1` gives the validation error;
stored `rShunt = 1/10` with calibration register `1280` gives the
formula value. -/
theorem currentResolution_guard_and_formula_witness :
    CurrentResolution ⟨-1, 0, 0, 0⟩ failConn =
      .error (.rShuntNotPositive (-1)) ∧
    CurrentResolution ⟨1/10, 0, 0, 0⟩ (okConn 5 0) =
      .ok ((0.00512 : ℚ) / ((1280 : ℚ) * (1/10))) := by
  exact ⟨(currentResolution_guard_and_formula ⟨-1, 0, 0, 0⟩ failConn).1
           (by norm_num),
         (currentResolution_guard_and_formula ⟨1/10, 0, 0, 0⟩
           (okConn 5 0)).2 1280 (by norm_num) rfl⟩

/-- C10: `Calibrate` stores the shunt resistance and maximum current into
`loadSet` before attempting the register write: when every write on the
connection fails, `Calibrate` returns the write error, yet the stored
values remain updated, so a later `CurrentResolution` with the positive
stored shunt resistance passes its validation check (and, reading
calibration value `cal`, returns the formula value). -/
theorem calibrate_stores_loadset_before_write (s : LoadSet) (c : Connection)
    (rShunt iMax : ℚ) (e : String) (hr : 0 < rShunt)
    (hw : ∀ buf, c.writeErr buf = some e) :
    (Calibrate s c rShunt iMax).result = .error (.ioErr e) ∧
    (Calibrate s c rShunt iMax).loadSet.rShunt = rShunt ∧
    (Calibrate s c rShunt iMax).loadSet.iMax = iMax ∧
    ∀ (c₂ : Connection) (cal : ℕ), readCalibrationRegister c₂ = .ok cal →
      CurrentResolution (Calibrate s c rShunt iMax).loadSet c₂ =
        .ok ((0.00512 : ℚ) / ((cal : ℚ) * rShunt)) := by
  refine ⟨?_, ?_, ?_, ?_⟩
  · simp only [Calibrate, connWrite, hw]
  · simp only [Calibrate, connWrite, hw]
  · simp only [Calibrate, connWrite, hw]
  · intro c₂ cal hread
    have hload : (Calibrate s c rShunt iMax).loadSet =
        { s with rShunt := rShunt, iMax := iMax } := by
      simp only [Calibrate, connWrite, hw]
    rw [hload]
    unfold CurrentResolution
    rw [if_neg (by simpa using not_le.mpr hr), hread]

/-- Witness for C10 at `rShunt = 1/10`, `iMax = 1`, a connection whose
writes all fail, and a second connection whose calibration read yields
1280. -/
theorem calibrate_stores_loadset_before_write_witness :
    (Calibrate ⟨0, 0, 0, 0⟩ failConn (1/10) 1).result =
      .error (.ioErr "write failed") ∧
    CurrentResolution (Calibrate ⟨0, 0, 0, 0⟩ failConn (1/10) 1).loadSet
      (okConn 5 0) = .ok ((0.00512 : ℚ) / ((1280 : ℚ) * (1/10))) := by
  have h := calibrate_stores_loadset_before_write ⟨0, 0, 0, 0⟩ failConn
    (1/10) 1 "write failed" (by norm_num) (fun _ => rfl)
  exact ⟨h.1, h.2.2.2 (okConn 5 0) 1280 rfl⟩

end I2C

namespace NanoPiNeo

/-- C2 (code bug): the guard of `GetConnection` accepts bus index 2, which
then indexes the 2-slot `i2cBuses` array out of bounds (runtime panic)
instead of returning the out-of-range error; indices outside `[0, 2]` are
rejected with the error, and indices 0 and 1 yield connections. -/
theorem getConnection_bus2_out_of_bounds :
    GetConnection 2 = .indexPanic 2 ∧
    GetConnection 3 = .rangeError 3 ∧
    GetConnection (-1) = .rangeError (-1) ∧
    GetConnection 0 = .conn 0 ∧
    GetConnection 1 = .conn 1 := by
  refine ⟨?_, ?_, ?_, ?_, ?_⟩ <;> decide

/-- C9: `NewAdaptor` never initializes `pinmap`, so `PWMPin`'s lookup
always yields the zero entry with channel 0 — never the
`"Not a PWM pin"` error — for every pin name, even though every entry of
the static `pins` table marks its PWM channel as `-1`. -/
theorem pwmPin_always_channel_zero :
    (∀ pin : String, PWMPinResolve newAdaptorPinmap pin = .ok 0) ∧
    ∀ entry ∈ pins, entry.2.pwmPin = -1 := by
  constructor
  · intro pin; rfl
  · decide

/-- Witness for C9 at the table pin `GPIOA6`. -/
theorem pwmPin_always_channel_zero_witness :
    PWMPinResolve newAdaptorPinmap "GPIOA6" = .ok 0 ∧
    (("GPIOA6", (⟨6, -1⟩ : SysfsPinEntry)) :
      String × SysfsPinEntry).2.pwmPin = -1 := by
  exact ⟨pwmPin_always_channel_zero.1 "GPIOA6",
         pwmPin_always_channel_zero.2 ("GPIOA6", ⟨6, -1⟩) (by decide)⟩

end NanoPiNeo

namespace NanoPiNeo

/-- C7: once `ServoWrite` has resolved a PWM pin, the duty cycle it sets is
the linear map of the angle from `[0, 180]` onto
`[500000, 2000000]` nanoseconds (the pin's configured period is never
consulted by `servoDuty`). -/
theorem servoWrite_duty_linear_map (angle : ℕ) (h : angle ≤ 180) :
    (servoDuty angle : ℤ) =
      ⌊(500000 : ℚ) + (angle : ℚ) * 1500000 / 180⌋ := by
  have hq : toScale (fromScale (angle : ℚ) 0 180) minDuty maxDuty
      = 500000 + (angle : ℚ) * 1500000 / 180 := by
    unfold toScale fromScale minDuty maxDuty
    rw [show (0.0005 : ℚ) * 1e9 = 500000 by norm_num,
        show (0.0020 : ℚ) * 1e9 = 2000000 by norm_num]
    ring
  unfold servoDuty
  rw [hq]
  have h0 : (0 : ℚ) ≤ 500000 + (angle : ℚ) * 1500000 / 180 := by positivity
  have h2 : (500000 : ℚ) + (angle : ℚ) * 1500000 / 180 ≤ 2000000 := by
    have ha : (angle : ℚ) ≤ 180 := by exact_mod_cast h
    nlinarith
  have hf0 : 0 ≤ ⌊(500000 : ℚ) + (angle : ℚ) * 1500000 / 180⌋ :=
    Int.floor_nonneg.mpr h0
  have hf2 : ⌊(500000 : ℚ) + (angle : ℚ) * 1500000 / 180⌋ ≤ 2000000 := by
    calc ⌊(500000 : ℚ) + (angle : ℚ) * 1500000 / 180⌋
        ≤ ⌊(2000000 : ℚ)⌋ := Int.floor_le_floor h2
      _ = 2000000 := by norm_num
  have hlt : (⌊(500000 : ℚ) + (angle : ℚ) * 1500000 / 180⌋).toNat < 2 ^ 32 := by
    omega
  rw [Nat.mod_eq_of_lt hlt]
  exact Int.toNat_of_nonneg hf0

/-- Witness for C7: angle 90 sets a duty cycle of 1250000 ns. -/
theorem servoWrite_duty_linear_map_witness : servoDuty 90 = 1250000 := by
  have h := servoWrite_duty_linear_map 90 (by norm_num)
  have h2 : ⌊(500000 : ℚ) + ((90 : ℕ) : ℚ) * 1500000 / 180⌋ = 1250000 := by
    push_cast
    norm_num
  exact_mod_cast h.trans h2

/-- C8: `Finalize` attempts the release of every created handle — unexport
for each digital pin, disable-then-unexport for each PWM pin, close for
each bus handle — continuing past individual failures, and the aggregated
error collects every individual release error. -/
theorem finalize_attempts_all_and_collects
    (dps : List (Option DigitalPinHandle)) (pps : List (Option PwmPinHandle))
    (buses : List (Option BusHandle)) :
    (∀ p : DigitalPinHandle, some p ∈ dps →
      ReleaseAction.unexportDigital p.id ∈ (Finalize dps pps buses).1 ∧
      ∀ e, p.unexportErr = some e → e ∈ (Finalize dps pps buses).2) ∧
    (∀ p : PwmPinHandle, some p ∈ pps →
      (ReleaseAction.enableFalsePwm p.id ∈ (Finalize dps pps buses).1 ∧
       ReleaseAction.unexportPwm p.id ∈ (Finalize dps pps buses).1) ∧
      (∀ e, p.enableFalseErr = some e → e ∈ (Finalize dps pps buses).2) ∧
      (∀ e, p.unexportErr = some e → e ∈ (Finalize dps pps buses).2)) ∧
    (∀ b : BusHandle, some b ∈ buses →
      ReleaseAction.closeBus b.id ∈ (Finalize dps pps buses).1 ∧
      ∀ e, b.closeErr = some e → e ∈ (Finalize dps pps buses).2) := by
  refine ⟨?_, ?_, ?_⟩
  · intro p hp
    constructor
    · exact List.mem_append_left _ (List.mem_append_left _
        (List.mem_flatMap.mpr ⟨some p, hp, List.Mem.head _⟩))
    · intro e he
      refine List.mem_append_left _ (List.mem_append_left _
        (List.mem_flatMap.mpr ⟨some p, hp, ?_⟩))
      show e ∈ p.unexportErr.toList
      rw [he]
      exact List.Mem.head _
  · intro p hp
    refine ⟨⟨?_, ?_⟩, ?_, ?_⟩
    · exact List.mem_append_left _ (List.mem_append_right _
        (List.mem_flatMap.mpr ⟨some p, hp, List.Mem.head _⟩))
    · exact List.mem_append_left _ (List.mem_append_right _
        (List.mem_flatMap.mpr ⟨some p, hp, List.Mem.tail _ (List.Mem.head _)⟩))
    · intro e he
      refine List.mem_append_left _ (List.mem_append_right _
        (List.mem_flatMap.mpr ⟨some p, hp, ?_⟩))
      show e ∈ p.enableFalseErr.toList ++ p.unexportErr.toList
      refine List.mem_append_left _ ?_
      rw [he]
      exact List.Mem.head _
    · intro e he
      refine List.mem_append_left _ (List.mem_append_right _
        (List.mem_flatMap.mpr ⟨some p, hp, ?_⟩))
      show e ∈ p.enableFalseErr.toList ++ p.unexportErr.toList
      refine List.mem_append_right _ ?_
      rw [he]
      exact List.Mem.head _
  · intro b hb
    constructor
    · exact List.mem_append_right _
        (List.mem_flatMap.mpr ⟨some b, hb, List.Mem.head _⟩)
    · intro e he
      refine List.mem_append_right _
        (List.mem_flatMap.mpr ⟨some b, hb, ?_⟩)
      show e ∈ b.closeErr.toList
      rw [he]
      exact List.Mem.head _

/-- Witness for C8: with digital pins 1 (whose unexport fails) and 2 and
PWM pin 3 created, all releases are attempted and the collected errors
contain the one failure. -/
theorem finalize_attempts_all_and_collects_witness :
    ReleaseAction.unexportDigital 2 ∈
      (Finalize [some ⟨1, some "fail"⟩, some ⟨2, none⟩]
        [some ⟨3, none, none⟩] []).1 ∧
    ReleaseAction.enableFalsePwm 3 ∈
      (Finalize [some ⟨1, some "fail"⟩, some ⟨2, none⟩]
        [some ⟨3, none, none⟩] []).1 ∧
    ReleaseAction.unexportPwm 3 ∈
      (Finalize [some ⟨1, some "fail"⟩, some ⟨2, none⟩]
        [some ⟨3, none, none⟩] []).1 ∧
    "fail" ∈
      (Finalize [some ⟨1, some "fail"⟩, some ⟨2, none⟩]
        [some ⟨3, none, none⟩] []).2 := by
  have h := finalize_attempts_all_and_collects
    [some ⟨1, some "fail"⟩, some ⟨2, none⟩] [some ⟨3, none, none⟩] []
  exact ⟨(h.1 ⟨2, none⟩ (by simp)).1,
         ((h.2.1 ⟨3, none, none⟩ (by simp)).1).1,
         ((h.2.1 ⟨3, none, none⟩ (by simp)).1).2,
         (h.1 ⟨1, some "fail"⟩ (by simp)).2 "fail" rfl⟩

end NanoPiNeo

namespace I2C

/-- `log10fuel fuel n` brackets `n` between consecutive powers of ten as
long as the fuel covers `n`. -/
theorem log10fuel_bounds :
    ∀ fuel n : ℕ, 1 ≤ n → n ≤ fuel →
      10 ^ log10fuel fuel n ≤ n ∧ n < 10 ^ (log10fuel fuel n + 1) := by
  intro fuel
  induction fuel with
  | zero => intro n h1 h2; exact absurd (h1.trans h2) (by norm_num)
  | succ f ih =>
    intro n h1 h2
    by_cases h10 : n < 10
    · simp only [log10fuel, if_pos h10]
      exact ⟨by simpa using h1, by simpa using h10⟩
    · push_neg at h10
      simp only [log10fuel, if_neg (not_lt.mpr h10)]
      have hd1 : 1 ≤ n / 10 := (Nat.one_le_div_iff (by norm_num)).mpr h10
      have hdf : n / 10 ≤ f := by
        have : n / 10 < n := Nat.div_lt_self (by omega) (by norm_num)
        omega
      obtain ⟨hlo, hhi⟩ := ih (n / 10) hd1 hdf
      constructor
      · calc 10 ^ (log10fuel f (n / 10) + 1)
            = 10 ^ log10fuel f (n / 10) * 10 := by ring
          _ ≤ n / 10 * 10 := by gcongr
          _ ≤ n := Nat.div_mul_le_self n 10
      · calc n < (n / 10 + 1) * 10 := by omega
          _ ≤ 10 ^ (log10fuel f (n / 10) + 1) * 10 := by
              gcongr
              omega
          _ = 10 ^ (log10fuel f (n / 10) + 1 + 1) := by ring

/-- `natLog10 n` brackets `n ≥ 1` between consecutive powers of ten. -/
theorem natLog10_bounds (n : ℕ) (h : 1 ≤ n) :
    10 ^ natLog10 n ≤ n ∧ n < 10 ^ (natLog10 n + 1) :=
  log10fuel_bounds n n h le_rfl

/-- `clog10fuel fuel n` dominates `n` and is least, as long as the fuel
covers `n`. -/
theorem clog10fuel_bounds :
    ∀ fuel n : ℕ, 1 ≤ n → n ≤ fuel →
      n ≤ 10 ^ clog10fuel fuel n ∧ 10 ^ clog10fuel fuel n < 10 * n := by
  intro fuel
  induction fuel with
  | zero => intro n h1 h2; exact absurd (h1.trans h2) (by norm_num)
  | succ f ih =>
    intro n h1 h2
    by_cases hle : n ≤ 1
    · simp only [clog10fuel, if_pos hle]
      have : n = 1 := le_antisymm hle h1
      simp [this]
    · push_neg at hle
      simp only [clog10fuel, if_neg (not_le.mpr hle)]
      have hm1 : 1 ≤ (n + 9) / 10 := by omega
      have hmf : (n + 9) / 10 ≤ f := by omega
      obtain ⟨hlo, hhi⟩ := ih ((n + 9) / 10) hm1 hmf
      constructor
      · calc n ≤ 10 * ((n + 9) / 10) := by omega
          _ ≤ 10 * 10 ^ clog10fuel f ((n + 9) / 10) := by gcongr
          _ = 10 ^ (clog10fuel f ((n + 9) / 10) + 1) := by ring
      · have hcn : 10 ^ clog10fuel f ((n + 9) / 10) < n := by
          rcases Nat.eq_zero_or_pos (clog10fuel f ((n + 9) / 10)) with hz | hpos
          · rw [hz]; simpa using hle
          · obtain ⟨k, hk⟩ : ∃ k, clog10fuel f ((n + 9) / 10) = k + 1 :=
              ⟨clog10fuel f ((n + 9) / 10) - 1, by omega⟩
            rw [hk] at hhi ⊢
            rw [pow_succ] at hhi ⊢
            have h1' : 10 ^ k < (n + 9) / 10 := by omega
            have h2' : 10 ^ k ≤ (n + 9) / 10 - 1 := by omega
            have h3' : 10 ^ k * 10 ≤ ((n + 9) / 10 - 1) * 10 := by gcongr
            omega
        calc 10 ^ (clog10fuel f ((n + 9) / 10) + 1)
            = 10 * 10 ^ clog10fuel f ((n + 9) / 10) := by ring
          _ < 10 * n := by gcongr
        
/-- `natClog10 n` dominates `n ≥ 1` and is least. -/
theorem natClog10_bounds (n : ℕ) (h : 1 ≤ n) :
    n ≤ 10 ^ natClog10 n ∧ 10 ^ natClog10 n < 10 * n :=
  clog10fuel_bounds n n h le_rfl

/-- The model `log10floorQ` really is `⌊log10 q⌋` for positive `q`:
`q` lies in `[10 ^ log10floorQ q, 10 ^ (log10floorQ q + 1))`.  This
justifies using `log10floorQ` for `math.Floor(math.Log10(q))`. -/
theorem log10floorQ_mem (q : ℚ) (hq : 0 < q) :
    (10 : ℚ) ^ log10floorQ q ≤ q ∧ q < (10 : ℚ) ^ (log10floorQ q + 1) := by
  unfold log10floorQ
  by_cases h1 : 1 ≤ q
  · rw [if_pos h1]
    have hfl1 : (1 : ℤ) ≤ ⌊q⌋ := Int.le_floor.mpr (by exact_mod_cast h1)
    have hn1 : 1 ≤ ⌊q⌋.toNat := by omega
    obtain ⟨hlo, hhi⟩ := natLog10_bounds ⌊q⌋.toNat hn1
    have hnq : ((⌊q⌋.toNat : ℕ) : ℚ) ≤ q := by
      rw [show ((⌊q⌋.toNat : ℕ) : ℚ) = ((⌊q⌋.toNat : ℤ) : ℚ) by push_cast; ring,
          Int.toNat_of_nonneg (by omega)]
      exact Int.floor_le q
    have hqn : q < ((⌊q⌋.toNat : ℕ) : ℚ) + 1 := by
      rw [show ((⌊q⌋.toNat : ℕ) : ℚ) = ((⌊q⌋.toNat : ℤ) : ℚ) by push_cast; ring,
          Int.toNat_of_nonneg (by omega)]
      exact Int.lt_floor_add_one q
    constructor
    · rw [zpow_natCast]
      calc (10 : ℚ) ^ natLog10 ⌊q⌋.toNat
          = ((10 ^ natLog10 ⌊q⌋.toNat : ℕ) : ℚ) := by push_cast; ring
        _ ≤ ((⌊q⌋.toNat : ℕ) : ℚ) := by exact_mod_cast hlo
        _ ≤ q := hnq
    · rw [show ((natLog10 ⌊q⌋.toNat : ℕ) : ℤ) + 1
            = ((natLog10 ⌊q⌋.toNat + 1 : ℕ) : ℤ) by push_cast; ring,
          zpow_natCast]
      calc q < ((⌊q⌋.toNat : ℕ) : ℚ) + 1 := hqn
        _ ≤ ((10 ^ (natLog10 ⌊q⌋.toNat + 1) : ℕ) : ℚ) := by exact_mod_cast hhi
        _ = (10 : ℚ) ^ (natLog10 ⌊q⌋.toNat + 1) := by push_cast; ring
  · rw [if_neg h1]
    push_neg at h1
    have hqi : 1 < q⁻¹ := by
      have hmul : q * q⁻¹ = 1 := mul_inv_cancel₀ (ne_of_gt hq)
      nlinarith [hmul]
    have hceil : (1 : ℤ) < ⌈q⁻¹⌉ := Int.lt_ceil.mpr (by exact_mod_cast hqi)
    have hm2 : 2 ≤ ⌈q⁻¹⌉.toNat := by omega
    obtain ⟨hlo, hhi⟩ := natClog10_bounds ⌈q⁻¹⌉.toNat (by omega)
    have hmc : ((⌈q⁻¹⌉.toNat : ℕ) : ℚ) = (⌈q⁻¹⌉ : ℚ) := by
      rw [show ((⌈q⁻¹⌉.toNat : ℕ) : ℚ) = ((⌈q⁻¹⌉.toNat : ℤ) : ℚ) by push_cast; ring,
          Int.toNat_of_nonneg (by omega)]
    have hinvle : q⁻¹ ≤ ((10 ^ natClog10 ⌈q⁻¹⌉.toNat : ℕ) : ℚ) := by
      calc q⁻¹ ≤ (⌈q⁻¹⌉ : ℚ) := Int.le_ceil q⁻¹
        _ = ((⌈q⁻¹⌉.toNat : ℕ) : ℚ) := hmc.symm
        _ ≤ _ := by exact_mod_cast hlo
    have hc1 : 1 ≤ natClog10 ⌈q⁻¹⌉.toNat := by
      rcases Nat.eq_zero_or_pos (natClog10 ⌈q⁻¹⌉.toNat) with hz | hp
      · rw [hz] at hlo; simp at hlo; omega
      · exact hp
    constructor
    · rw [zpow_neg, zpow_natCast]
      have h10pos : (0 : ℚ) < (10 : ℚ) ^ natClog10 ⌈q⁻¹⌉.toNat := by positivity
      rw [← one_div, div_le_iff₀ h10pos]
      have hx : q⁻¹ ≤ (10 : ℚ) ^ natClog10 ⌈q⁻¹⌉.toNat := by
        calc q⁻¹ ≤ ((10 ^ natClog10 ⌈q⁻¹⌉.toNat : ℕ) : ℚ) := hinvle
          _ = (10 : ℚ) ^ natClog10 ⌈q⁻¹⌉.toNat := by push_cast; ring
      calc (1 : ℚ) = q * q⁻¹ := (mul_inv_cancel₀ (ne_of_gt hq)).symm
        _ ≤ q * (10 : ℚ) ^ natClog10 ⌈q⁻¹⌉.toNat :=
            mul_le_mul_of_nonneg_left hx (le_of_lt hq)
    · obtain ⟨k, hk⟩ : ∃ k, natClog10 ⌈q⁻¹⌉.toNat = k + 1 :=
        ⟨natClog10 ⌈q⁻¹⌉.toNat - 1, by omega⟩
      rw [hk]
      rw [hk, pow_succ] at hhi
      have hkm : 10 ^ k + 1 ≤ ⌈q⁻¹⌉.toNat := by omega
      have hq1 : (10 : ℚ) ^ k < q⁻¹ := by
        have hcast : ((10 ^ k : ℕ) : ℚ) + 1 ≤ ((⌈q⁻¹⌉.toNat : ℕ) : ℚ) := by
          exact_mod_cast hkm
        have hm1q : ((⌈q⁻¹⌉.toNat : ℕ) : ℚ) < q⁻¹ + 1 := by
          rw [hmc]; exact Int.ceil_lt_add_one q⁻¹
        have hlt : ((10 ^ k : ℕ) : ℚ) < q⁻¹ := by linarith
        calc (10 : ℚ) ^ k = ((10 ^ k : ℕ) : ℚ) := by push_cast; ring
          _ < q⁻¹ := hlt
      rw [show (-(((k + 1 : ℕ) : ℤ)) + 1) = -(k : ℤ) by push_cast; ring]
      rw [zpow_neg, zpow_natCast]
      rw [show q = (q⁻¹)⁻¹ by rw [inv_inv]]
      have hpos : (0 : ℚ) < (10 : ℚ) ^ k := by positivity
      gcongr

end I2C

namespace I2C

/-- C1: for positive `rShunt` and `iMax`, the buffer `Calibrate` writes is
register address `0x05` followed by the big-endian bytes of exactly the
spec's value: `currentLSB = iMax / 32768` scaled to micro-amps, rounded up
to one significant digit via `ceil(mantissa) * 10 ^ floor(log10 lsb)`,
converted back to amps, then `floor(0.00512 / (roundedLSB * rShunt))`
truncated to an unsigned 16-bit integer. -/
theorem calibrate_writes_rounded_lsb_value (s : LoadSet) (c : Connection)
    (rShunt iMax : ℚ) (hr : 0 < rShunt) (hi : 0 < iMax) :
    (Calibrate s c rShunt iMax).written =
      [CALIBRATION_REG, specCalibrationValue rShunt iMax / 256,
       specCalibrationValue rShunt iMax % 256] ∧
    specCalibrationValue rShunt iMax < 2 ^ 16 := by
  have hval : specCalibrationValue rShunt iMax < 2 ^ 16 := by
    unfold specCalibrationValue
    exact Nat.mod_lt _ (by norm_num)
  refine ⟨?_, hval⟩
  have hbuf : (Calibrate s c rShunt iMax).written =
      CALIBRATION_REG ::
        wordToByteArray (specCalibrationValue rShunt iMax) := rfl
  rw [hbuf, wordToByteArray_eq _ hval]

/-- Witness for C1 at `rShunt = 1/10` ohm, `iMax = 1` A: the LSB is
`30.51…` µA, rounded up to `40` µA, and
`⌊0.00512 / (0.00004 ⋅ 0.1)⌋ = 1280 = 0x0500`, so the bytes written are
`[0x05, 0x05, 0x00]`. -/
theorem calibrate_writes_rounded_lsb_value_witness :
    (Calibrate ⟨0, 0, 0, 0⟩ failConn (1/10) 1).written = [5, 5, 0] := by
  have h := calibrate_writes_rounded_lsb_value ⟨0, 0, 0, 0⟩ failConn
    (1/10) 1 (by norm_num) (by norm_num)
  rw [h.1]
  have hfl : ⌊(1 : ℚ) / 32768 * 1000000⌋ = 30 := by norm_num
  have he : log10floorQ ((1 : ℚ) / 32768 * 1000000) = 1 := by
    unfold log10floorQ
    rw [if_pos (by norm_num), hfl]
    decide
  have hs : specCalibrationValue (1/10) 1 = 1280 := by
    simp only [specCalibrationValue]
    rw [he, zpow_one]
    have hc : ⌈(1 : ℚ) / 32768 * 1000000 / 10⌉ = 4 := by
      rw [Int.ceil_eq_iff]
      norm_num
    rw [hc]
    unfold uint16OfQ
    have hv : (0.00512 : ℚ) / (((4 : ℤ) : ℚ) * 10 / 1000000 * (1/10))
        = 1280 := by norm_num
    rw [hv]
    norm_num
    decide
  rw [hs]
  decide

end I2C
